import Mathlib

/- Verification development for the R6-Map-Spider collection pipeline
   (src/main.py).  The Python source is shallowly embedded:

   * `extract_zip_flat` is modelled over the list of archive entries
     (`zipfile.infolist()`) and an abstract file-system state mapping a
     canonical absolute path (a list of components) to file bytes.
   * `zip_folder` is modelled over a directory tree; its output is the
     sequence of zip entry records it writes.  Since the per-entry
     timestamp, compression method and level are constants, the bytes of
     the produced archive are an injective function of this sequence, so
     two archives are byte-identical exactly when the record sequences
     are equal.
   * `run_crawl` is modelled over an abstract per-item oracle describing
     what the external browser/network collaborators did for each catalog
     item, plus an oracle for the outcome of the fallible packing I/O.
   * `main` (the two-pass reconciliation controller) is modelled as a
     function from the two passes' observable results to the decision. -/

namespace R6

/-- Bytes of a file (each value is one byte, 0..255). -/
abbrev ByteSeq := List Nat

/-! ### Character and string helpers

Python operations used by the source, re-implemented over `List Char`
so that everything reduces in the kernel:
`needle in haystack` (substring test), `str.endswith('/')`, and
`os.path.basename` (everything after the last `'/'`, POSIX form, which
is the form in effect on the Linux deployment the source targets). -/

/-- Does the second list start with the first one? -/
def listStartsWith : List Char → List Char → Bool
  | [], _ => true
  | _ :: _, [] => false
  | a :: as, b :: bs => decide (a = b) && listStartsWith as bs

/-- Does the second list contain the first one as a contiguous run? -/
def listHasSub (needle : List Char) : List Char → Bool
  | [] => listStartsWith needle []
  | c :: rest => listStartsWith needle (c :: rest) || listHasSub needle rest

/-- Python `pat in s` substring test. -/
def strContains (s pat : String) : Bool :=
  listHasSub pat.toList s.toList

/-- Python `s.endswith('/')`, the `zipfile.ZipInfo.is_dir` test. -/
def endsWithSlash (s : String) : Bool :=
  match s.toList.getLast? with
  | some c => decide (c = '/')
  | none => false

/-- Accumulates the characters seen since the last `'/'`. -/
def basenameAux (acc : List Char) : List Char → List Char
  | [] => acc
  | c :: rest => if c = '/' then basenameAux [] rest else basenameAux (acc ++ [c]) rest

/-- Python `os.path.basename` (POSIX): the characters after the last
slash, i.e. `p[p.rfind('/') + 1:]`. -/
def pyBasename (s : String) : String :=
  String.mk (basenameAux [] s.toList)

/-! ### File-system model for the extractor

An absolute path is a list of name components.  The file system is a
partial map from paths to file contents; directories are implicit.
`targetDir` is given as its component list (assumed canonical: no
component is `"."` or `".."`, which holds for the literal target
directories the source passes, e.g. `./maps/<map_name>`). -/

/-- File-system state: which file content, if any, lives at a path. -/
abbrev Fs := List String → Option ByteSeq

/-- Overwrite (or create) the file at path `p`. -/
def updateFs (fs : Fs) (p : List String) (c : ByteSeq) : Fs :=
  fun q => if q = p then some c else fs q

/-- One step of OS path resolution over a component list: `"."` is
dropped, `".."` removes the preceding component. -/
def normSteps (acc : List String) : List String → List String
  | [] => acc
  | c :: rest =>
      if c = "." then normSteps acc rest
      else if c = ".." then normSteps acc.dropLast rest
      else normSteps (acc ++ [c]) rest

/-- Full OS resolution of a component path. -/
def normalizePath (p : List String) : List String :=
  normSteps [] p

/-! ### extract_zip_flat (src/main.py lines 21-44) -/

/-- One archive entry as seen through `zipfile.ZipFile.infolist()`:
the stored path and the decompressed payload.  A directory entry is one
whose stored name ends with `'/'` (`ZipInfo.is_dir`). -/
structure ZEntry where
  filename : String
  content : ByteSeq
  deriving DecidableEq

/-- The three `continue` conditions of the extraction loop:
`'__MACOSX' in zip_info.filename`, `zip_info.is_dir()`, and an empty
basename. -/
def skipEntry (e : ZEntry) : Bool :=
  strContains e.filename "__MACOSX" || endsWithSlash e.filename
    || decide (pyBasename e.filename = "")

/-- `open(os.path.join(target_dir, file_name), 'wb')` followed by the
copy.  `file_name` is a basename, hence free of `'/'`; joining appends
exactly one component.  When that component is `"."` or `".."` the
joined path resolves to an existing directory (the target itself or its
parent, both created/existing), so the open raises `IsADirectoryError`
and no file is written; the exception aborts the whole extraction via
the surrounding `try`.  Any other component names a file directly inside
the target directory and the write succeeds. -/
def writeResult (fs : Fs) (target : List String) (name : String) (c : ByteSeq) :
    Option Fs :=
  if name = "." ∨ name = ".." then none
  else some (updateFs fs (target ++ [name]) c)

/-- The entry loop of `extract_zip_flat`: returns the Python function's
boolean result together with the file-system state it leaves behind
(on failure, files already written stay in place — no rollback). -/
def extractLoop (target : List String) : List ZEntry → Fs → Bool × Fs
  | [], fs => (true, fs)
  | e :: rest, fs =>
      if skipEntry e then extractLoop target rest fs
      else
        match writeResult fs target (pyBasename e.filename) e.content with
        | none => (false, fs)
        | some fs2 => extractLoop target rest fs2

/-- `extract_zip_flat(zip_path, target_dir)`, with the archive already
opened into its entry list. -/
def extract_zip_flat (target : List String) (entries : List ZEntry) (fs : Fs) :
    Bool × Fs :=
  extractLoop target entries fs

/-! ### zip_folder (src/main.py lines 47-68) -/

/-- One entry as written into the archive: `ZipInfo` metadata plus the
payload.  `compressType = 8` is `zipfile.ZIP_DEFLATED`; the level comes
from the `ZipFile(..., compresslevel=6)` constructor argument. -/
structure ZipEntryRecord where
  arcname : String
  dateTime : Nat × Nat × Nat × Nat × Nat × Nat
  compressType : Nat
  compressLevel : Nat
  content : ByteSeq
  deriving DecidableEq

/-- The record `zip_folder` writes for one file: a fresh `ZipInfo` with
the hard-coded timestamp `(2015, 11, 28, 0, 0, 0)` (the adjacent source
comment says 2020-01-01, but the tuple is what is stored), DEFLATE
compression, level 6, and the file bytes read verbatim. -/
def mkRecord (arcname : String) (content : ByteSeq) : ZipEntryRecord :=
  { arcname := arcname
    dateTime := (2015, 11, 28, 0, 0, 0)
    compressType := 8
    compressLevel := 6
    content := content }

/-- `os.path.relpath(file_path, folder_path)` with `'/'` separators. -/
def joinPath (pre : List String) (name : String) : String :=
  String.intercalate "/" (pre ++ [name])

/-- A directory tree: named subdirectories and named regular files,
each list in the file system's native enumeration order (the order
`os.walk` reports them in). -/
inductive Tree where
  | node (dirs : List (String × Tree)) (files : List (String × ByteSeq)) : Tree

/-- The subdirectory list of a tree node. -/
def Tree.dirs : Tree → List (String × Tree)
  | .node ds _ => ds

/-- The file list of a tree node. -/
def Tree.files : Tree → List (String × ByteSeq)
  | .node _ fs => fs

/-- Insertion into a name-sorted file list (Python string order is
code-point lexicographic, matching `String` order). -/
def insertByName (f : String × ByteSeq) : List (String × ByteSeq) → List (String × ByteSeq)
  | [] => [f]
  | g :: rest => if decide (f.1 ≤ g.1) then f :: g :: rest else g :: insertByName f rest

/-- Python `sorted(files)`: the per-directory file list in name order. -/
def sortByName : List (String × ByteSeq) → List (String × ByteSeq)
  | [] => []
  | f :: rest => insertByName f (sortByName rest)

mutual

/-- The `os.walk(folder_path)` loop body of `zip_folder`: for each
directory triple, the (sorted) files are appended, then the walk
recurses into the subdirectories in their native enumeration order.
Only the file names are sorted — the subdirectory order is taken as the
file system reports it. -/
def walkPairs (pre : List String) : Tree → List (String × ByteSeq)
  | .node dirs files =>
      (sortByName files).map (fun f => (joinPath pre f.1, f.2)) ++ walkDirs pre false dirs

/-- Recursion into subdirectories.  The flag records whether the single
`dirs.remove('__MACOSX')` (guarded by `if '__MACOSX' in dirs`) has
already taken effect: Python's `list.remove` drops only the first
occurrence. -/
def walkDirs (pre : List String) (removedJunk : Bool) : List (String × Tree) → List (String × ByteSeq)
  | [] => []
  | (n, t) :: rest =>
      if removedJunk = false ∧ n = "__MACOSX" then walkDirs pre true rest
      else walkPairs (pre ++ [n]) t ++ walkDirs pre removedJunk rest

end

/-- `zip_folder(folder_path, zip_path)`: the sequence of entry records
written into the archive, in order.  Fixed metadata plus a fixed entry
order determine the archive bytes, so archives are byte-identical
exactly when these sequences are equal. -/
def zip_folder (t : Tree) : List ZipEntryRecord :=
  (walkPairs [] t).map (fun p => mkRecord p.1 p.2)

mutual

/-- The logical content of a directory tree: every (relative path,
bytes) pair, with no sorting and no junk-directory pruning — the raw
multiset of data the packer's determinism claim quantifies over. -/
def allPairs (pre : List String) : Tree → List (String × ByteSeq)
  | .node dirs files =>
      files.map (fun f => (joinPath pre f.1, f.2)) ++ allDirs pre dirs

/-- Logical content of a subdirectory list. -/
def allDirs (pre : List String) : List (String × Tree) → List (String × ByteSeq)
  | [] => []
  | (n, t) :: rest => allPairs (pre ++ [n]) t ++ allDirs pre rest

end

/-- A directory with only files. -/
def leafT (files : List (String × ByteSeq)) : Tree :=
  Tree.node [] files

/-- Two subdirectories `a` and `b`, enumerated by the file system in the
order `[a, b]`. -/
def c1TreeA : Tree :=
  Tree.node [("a", leafT [("f.txt", [1])]), ("b", leafT [("g.txt", [2])])] []

/-- The same two subdirectories with the same contents, enumerated in
the order `[b, a]`. -/
def c1TreeB : Tree :=
  Tree.node [("b", leafT [("g.txt", [2])]), ("a", leafT [("f.txt", [1])])] []

/-! ### run_crawl (src/main.py lines 101-244)

The browser, page scraping and HTTP download are external collaborators;
they are modelled by a per-item oracle saying how far each catalog item
got.  The early driver-initialisation failures (which return
`(True, None, None)` before any item is processed) and the
catalog-unavailable path are outside the claims checked here and are not
modelled.  The packing step's fallible I/O is modelled by `PackOutcome`. -/

/-- What the external collaborators did for one catalog item:
  * `ok files` — download and flat extraction succeeded, leaving the
    given flat files in `maps/<name>`;
  * `emptyLink` — the download button had no `href`
    (`raise ValueError("下载链接为空")`);
  * `fetchFailed code` — `requests.get` returned this non-200 status
    (`raise Exception(f"地图压缩包{code}")`), nothing written to disk;
  * `extractFail zipBytes leftoverFiles` — the download succeeded
    (bytes written to `maps/<name>.zip`) but `extract_zip_flat`
    returned failure (`raise Exception("解压失败")`); the temp zip is
    not removed and `maps/<name>` holds whatever was partially written;
  * `exc msg` — any other exception with this `str(e)`, modelled as
    leaving nothing on disk (e.g. a page-load timeout before the
    download). -/
inductive ItemBehavior where
  | ok (files : List (String × ByteSeq))
  | emptyLink
  | fetchFailed (code : Nat)
  | extractFail (zipBytes : ByteSeq) (leftoverFiles : List (String × ByteSeq))
  | exc (msg : String)
  deriving DecidableEq

/-- One catalog item: its display name and its oracle behavior. -/
structure ItemSpec where
  name : String
  behavior : ItemBehavior
  deriving DecidableEq

/-- The `except` classifier of the per-item loop:
`if "404" in error_msg ... elif "下载链接为空" in error_msg ... else`. -/
def classifyError (msg : String) : String :=
  if strContains msg "404" then "地图压缩包404"
  else if strContains msg "下载链接为空" then "地图链接404"
  else msg

/-- The status string recorded for one item (`map_status[map_name]`). -/
def itemStatus : ItemBehavior → String
  | .ok _ => "正常"
  | .emptyLink => classifyError "下载链接为空"
  | .fetchFailed code => classifyError ("地图压缩包" ++ Nat.repr code)
  | .extractFail _ _ => classifyError "解压失败"
  | .exc msg => classifyError msg

/-- Did this item take the `except` branch (setting `has_error`)? -/
def itemErrored : ItemBehavior → Bool
  | .ok _ => false
  | _ => true

/-- Python `dict` assignment on an insertion-ordered association list:
an existing key keeps its position and gets the new value, a new key is
appended. -/
def dictInsert : List (String × String) → String → String → List (String × String)
  | [], k, v => [(k, v)]
  | p :: rest, k, v => if p.1 = k then (k, v) :: rest else p :: dictInsert rest k v

/-- Python `d[k]` lookup (as an `Option`). -/
def lookupStatus : List (String × String) → String → Option String
  | [], _ => none
  | p :: rest, k => if p.1 = k then some p.2 else lookupStatus rest k

/-- The `map_status` dict after the per-item loop. -/
def statusDict : List ItemSpec → List (String × String) → List (String × String)
  | [], d => d
  | it :: rest, d => statusDict rest (dictInsert d it.name (itemStatus it.behavior))

/-- Name-keyed lookup in a directory listing (names are unique on a
real file system, so the first match is the file). -/
def assocLookup {α : Type} : List (String × α) → String → Option α
  | [], _ => none
  | p :: rest, k => if p.1 = k then some p.2 else assocLookup rest k

/-- A single `open(path, 'wb')` write into a flat directory listing: an
existing file of that name is truncated and rewritten in place, a new
name is appended (creation order). -/
def putEntry {α : Type} : List (String × α) → String → α → List (String × α)
  | [], k, v => [(k, v)]
  | p :: rest, k, v => if p.1 = k then (k, v) :: rest else p :: putEntry rest k v

/-- Sequential flat-extraction writes into an existing directory
listing: later writes overwrite same-named earlier files. -/
def mergeFiles : List (String × ByteSeq) → List (String × ByteSeq) → List (String × ByteSeq)
  | old, [] => old
  | old, f :: rest => mergeFiles (putEntry old f.1 f.2) rest

/-- `os.makedirs(maps/<n>, exist_ok=True)` followed by flat extraction:
an existing directory named `n` is reused in place and receives the new
files (overwriting per basename); otherwise a fresh directory is
appended. -/
def dirUpsert : List (String × List (String × ByteSeq)) → String → List (String × ByteSeq) →
    List (String × List (String × ByteSeq))
  | [], n, files => [(n, mergeFiles [] files)]
  | d :: rest, n, files =>
      if d.1 = n then (n, mergeFiles d.2 files) :: rest else d :: dirUpsert rest n files

/-- `os.remove` of a loose file by name. -/
def removeLoose : List (String × ByteSeq) → String → List (String × ByteSeq)
  | [], _ => []
  | p :: rest, k => if p.1 = k then removeLoose rest k else p :: removeLoose rest k

/-- The `./maps` working directory: per-map subdirectories (name and
flat file listing) and loose files, both in creation order, names
unique as on a real file system. -/
structure MapsDir where
  subdirs : List (String × List (String × ByteSeq))
  looseFiles : List (String × ByteSeq)

/-- The on-disk effect of one catalog item.  Two items sharing a name
target the same `maps/<name>` directory and the same `maps/<name>.zip`
temp file:
  * `ok files` — `maps/<name>.zip` is written, the extraction into
    `maps/<name>` (created or reused) leaves `files` there overwriting
    per basename, then `os.remove` deletes the temp zip;
  * `extractFail zipBytes leftoverFiles` — the downloaded
    `maps/<name>.zip` stays (it is removed only on success) and the
    target directory holds whatever was partially written;
  * the other failures touch nothing. -/
def collectStep (d : MapsDir) : ItemSpec → MapsDir
  | ⟨n, .ok files⟩ =>
      { subdirs := dirUpsert d.subdirs n files
        looseFiles := removeLoose d.looseFiles (n ++ ".zip") }
  | ⟨n, .extractFail zipBytes leftoverFiles⟩ =>
      { subdirs := dirUpsert d.subdirs n leftoverFiles
        looseFiles := putEntry d.looseFiles (n ++ ".zip") zipBytes }
  | _ => d

/-- The working directory after processing the catalog in order. -/
def collectDir : List ItemSpec → MapsDir → MapsDir
  | [], d => d
  | it :: rest, d => collectDir rest (collectStep d it)

/-- The `./maps` directory as it stands when `zip_folder` runs, with
creation order (= catalog order) as the enumeration order. -/
def collectTree (items : List ItemSpec) : Tree :=
  Tree.node ((collectDir items ⟨[], []⟩).subdirs.map (fun s => (s.1, Tree.node [] s.2)))
    (collectDir items ⟨[], []⟩).looseFiles

/-- Content of file `fname` inside subdirectory `dn` of a tree. -/
def treeFileLookup (t : Tree) (dn fname : String) : Option ByteSeq :=
  match assocLookup t.dirs dn with
  | some sub => assocLookup sub.files fname
  | none => none

/-- Outcome of the fallible packing I/O inside `zip_folder`:
  * `packed` — no exception, the archive file is complete;
  * `failedFileKept` — an exception after `ZipFile(zip_path, 'w', ...)`
    created/truncated the file (e.g. an unreadable input file), so
    `zip_folder` returns `False` but a partial archive file exists;
  * `failedNoFile` — the failure left no file at `zip_path`. -/
inductive PackOutcome where
  | packed
  | failedFileKept
  | failedNoFile
  deriving DecidableEq

/-- Does a file exist at `zip_path` after the packing attempt
(`os.path.exists(zip_path)`)? -/
def packLeavesFile : PackOutcome → Bool
  | .failedNoFile => false
  | _ => true

/-- The observable result of one `run_crawl` call: the printed totals
and per-item report, the returned error flag and hash, plus (for the
specification of the packer input) the entry sequence the packer writes
when it succeeds. -/
structure RunResult where
  totalMaps : Nat
  mapStatus : List (String × String)
  hasError : Bool
  zipResult : Bool
  fileExists : Bool
  fileHash : Option ByteSeq
  packedEntries : List ZipEntryRecord
  deriving DecidableEq

/-- `run_crawl(zip_suffix)` (src/main.py lines 101-244), from the item
loop onward.  `digestFull` is the SHA-256 digest `calculate_file_hash`
computes for the completed archive, `digestLeft` the digest of a
partial file left by a failed pack; both are oracle inputs because the
hash function itself is an external, deterministic primitive. -/
def run_crawl (items : List ItemSpec) (pack : PackOutcome) (zipSuffix : String)
    (digestFull digestLeft : ByteSeq) : RunResult :=
  let st := statusDict items []
  let errs := items.any (fun it => itemErrored it.behavior)
  let zipResult : Bool := match pack with | .packed => true | _ => false
  let zipPath := "./r6maps" ++ zipSuffix ++ ".zip"
  let st2 := if zipResult then st else dictInsert st "打包" (zipPath ++ "打包失败")
  let fileEx := packLeavesFile pack
  { totalMaps := items.length
    mapStatus := st2
    hasError := errs || !zipResult
    zipResult := zipResult
    fileExists := fileEx
    fileHash := if fileEx then some (if zipResult then digestFull else digestLeft) else none
    packedEntries := zip_folder (collectTree items) }

/-! ### main (src/main.py lines 247-290) -/

/-- What `main` observes of one `run_crawl` call: the error flag, the
returned hash (`None` when no archive file existed), and whether the
pass's archive file exists on disk. -/
structure RunSpec where
  hasError : Bool
  zipExists : Bool
  fingerprint : Option ByteSeq
  deriving DecidableEq

/-- Which pass an artifact was copied from. -/
inductive PassTag where
  | firstPass
  | secondPass
  deriving DecidableEq

/-- The terminal observables of `main`: whether the second crawl was
executed, the process exit code, and the provenance of the canonical
`./r6maps.zip` / `./hash.txt` pair (`none` = not written). -/
structure MainOutcome where
  ranSecond : Bool
  exitCode : Nat
  canonicalArchiveFrom : Option PassTag
  canonicalHashFrom : Option PassTag
  deriving DecidableEq

/-- `first_hash and second_hash and first_hash == second_hash`.  A
SHA-256 hex digest is a nonempty string, so Python truthiness of a
defined hash is always `True` and presence (`Option.isSome`) models it
exactly. -/
def hashesMatch : Option ByteSeq → Option ByteSeq → Bool
  | some a, some b => decide (a = b)
  | _, _ => false

/-- The `RunSpec` a modelled `run_crawl` presents to `main`. -/
def toRunSpec (r : RunResult) : RunSpec :=
  { hasError := r.hasError, zipExists := r.fileExists, fingerprint := r.fileHash }

/-- `main()` (src/main.py lines 247-290): first pass; on a clean first
pass copy its artifacts to the canonical names (guarded by
`os.path.exists(first_zip)`) and exit 0; otherwise run the second pass
and compare hashes — equal defined hashes copy the first pass's
artifacts and exit 0, anything else exits 1 writing nothing. -/
def main (first second : RunSpec) : MainOutcome :=
  if first.hasError = false then
    { ranSecond := false
      exitCode := 0
      canonicalArchiveFrom := if first.zipExists then some PassTag.firstPass else none
      canonicalHashFrom := if first.zipExists then some PassTag.firstPass else none }
  else if hashesMatch first.fingerprint second.fingerprint then
    { ranSecond := true
      exitCode := 0
      canonicalArchiveFrom := some PassTag.firstPass
      canonicalHashFrom := some PassTag.firstPass }
  else
    { ranSecond := true
      exitCode := 1
      canonicalArchiveFrom := none
      canonicalHashFrom := none }

/-- An empty file system (no file exists anywhere). -/
def emptyFs : Fs :=
  fun _ => none

/-- A small archive: two entries sharing the basename `x.txt` under
different folders, with a directory entry between them. -/
def w7Entries : List ZEntry :=
  [⟨"a/x.txt", [1]⟩, ⟨"d/", [9]⟩, ⟨"b/x.txt", [2]⟩]

/-! ## Supporting lemmas -/

/-- `basenameAux` never emits a slash, provided none is accumulated. -/
theorem basenameAux_no_slash :
    ∀ (l acc : List Char), (∀ c ∈ acc, c ≠ '/') →
      ∀ c ∈ basenameAux acc l, c ≠ '/' := by
  intro l
  induction l with
  | nil =>
    intro acc h c hc
    exact h c hc
  | cons a rest ih =>
    intro acc h c hc
    by_cases ha : a = '/'
    · rw [basenameAux, if_pos ha] at hc
      exact ih [] (by intro x hx; cases hx) c hc
    · rw [basenameAux, if_neg ha] at hc
      refine ih (acc ++ [a]) ?_ c hc
      intro x hx
      rcases List.mem_append.mp hx with h1 | h2
      · exact h x h1
      · rw [List.mem_singleton.mp h2]
        exact ha

/-- A Python basename contains no slash. -/
theorem pyBasename_no_slash (s : String) :
    ∀ c ∈ (pyBasename s).toList, c ≠ '/' := by
  intro c hc
  exact basenameAux_no_slash s.toList [] (by intro x hx; cases hx) c hc

/-- OS path resolution is the identity on a path with no `"."` or
`".."` components. -/
theorem normSteps_clean :
    ∀ (l acc : List String), (∀ c ∈ l, c ≠ "." ∧ c ≠ "..") →
      normSteps acc l = acc ++ l := by
  intro l
  induction l with
  | nil =>
    intro acc _
    simp [normSteps]
  | cons a rest ih =>
    intro acc h
    have ha := h a (List.mem_cons_self a rest)
    have hrest : ∀ c ∈ rest, c ≠ "." ∧ c ≠ ".." :=
      fun c hc => h c (List.mem_cons_of_mem a hc)
    rw [normSteps, if_neg ha.1, if_neg ha.2, ih (acc ++ [a]) hrest]
    simp

/-- Any path the extraction loop touches is `target` extended by one
slash-free, nonempty component distinct from `"."` and `".."`. -/
theorem extractLoop_changed (target : List String) :
    ∀ (entries : List ZEntry) (fs : Fs) (p : List String),
      (extractLoop target entries fs).2 p ≠ fs p →
      ∃ name, p = target ++ [name] ∧ (∀ c ∈ name.toList, c ≠ '/') ∧
        name ≠ "" ∧ name ≠ "." ∧ name ≠ ".." := by
  intro entries
  induction entries with
  | nil =>
    intro fs p h
    simp [extractLoop] at h
  | cons e rest ih =>
    intro fs p h
    cases hsk : skipEntry e with
    | true =>
      rw [show extractLoop target (e :: rest) fs = extractLoop target rest fs from by
        simp [extractLoop, hsk]] at h
      exact ih fs p h
    | false =>
      have hbn : pyBasename e.filename ≠ "" := by
        intro hx
        have hsk2 : skipEntry e = true := by simp [skipEntry, hx]
        rw [hsk2] at hsk
        cases hsk
      by_cases hdot : pyBasename e.filename = "." ∨ pyBasename e.filename = ".."
      · rw [show extractLoop target (e :: rest) fs = (false, fs) from by
          simp [extractLoop, hsk, writeResult, hdot]] at h
        exact absurd rfl h
      · have hstep : extractLoop target (e :: rest) fs
            = extractLoop target rest
                (updateFs fs (target ++ [pyBasename e.filename]) e.content) := by
          simp [extractLoop, hsk, writeResult, hdot]
        rw [hstep] at h
        by_cases h2 : (extractLoop target rest
              (updateFs fs (target ++ [pyBasename e.filename]) e.content)).2 p
            = updateFs fs (target ++ [pyBasename e.filename]) e.content p
        · rw [h2] at h
          have hp : p = target ++ [pyBasename e.filename] := by
            by_contra hne
            simp [updateFs, hne] at h

          exact ⟨pyBasename e.filename, hp, pyBasename_no_slash e.filename, hbn,
            fun hx => hdot (Or.inl hx), fun hx => hdot (Or.inr hx)⟩
        · exact ih _ p h2

/-- On a successful extraction, the file at `target ++ [name]` holds the
content of the last non-skipped entry whose basename is `name` (and is
untouched when there is none). -/
theorem extractLoop_lookup (target : List String) :
    ∀ (entries : List ZEntry) (fs : Fs) (name : String),
      (extractLoop target entries fs).1 = true →
      (extractLoop target entries fs).2 (target ++ [name]) =
        match (entries.filter fun e =>
            !skipEntry e && decide (pyBasename e.filename = name)).getLast? with
        | some e => some e.content
        | none => fs (target ++ [name]) := by
  intro entries
  induction entries with
  | nil =>
    intro fs name _
    simp [extractLoop]
  | cons e rest ih =>
    intro fs name h
    cases hsk : skipEntry e with
    | true =>
      have hloop : extractLoop target (e :: rest) fs = extractLoop target rest fs := by
        simp [extractLoop, hsk]
      rw [hloop] at h ⊢
      rw [List.filter_cons, if_neg (by simp [hsk])]
      exact ih fs name h
    | false =>
      by_cases hdot : pyBasename e.filename = "." ∨ pyBasename e.filename = ".."
      · rw [show extractLoop target (e :: rest) fs = (false, fs) from by
          simp [extractLoop, hsk, writeResult, hdot]] at h
        simp at h
      · have hstep : extractLoop target (e :: rest) fs
            = extractLoop target rest
                (updateFs fs (target ++ [pyBasename e.filename]) e.content) := by
          simp [extractLoop, hsk, writeResult, hdot]
        rw [hstep] at h ⊢
        by_cases hname : pyBasename e.filename = name
        · rw [List.filter_cons, if_pos (by simp [hsk, hname])]
          have hthis := ih (updateFs fs (target ++ [pyBasename e.filename]) e.content) name h
          cases hfl : rest.filter (fun e2 =>
              !skipEntry e2 && decide (pyBasename e2.filename = name)) with
          | nil =>
            rw [hfl] at hthis
            rw [hthis]
            simp [updateFs, hname]
          | cons f fl =>
            rw [hfl] at hthis
            rw [hthis, List.getLast?_cons_cons, List.getLast?_eq_getLast (f :: fl) (by simp)]
        · rw [List.filter_cons, if_neg (by simp [hname])]
          have hthis := ih (updateFs fs (target ++ [pyBasename e.filename]) e.content) name h
          cases hfl : rest.filter (fun e2 =>
              !skipEntry e2 && decide (pyBasename e2.filename = name)) with
          | nil =>
            rw [hfl] at hthis
            rw [hthis]
            have hne : target ++ [name] ≠ target ++ [pyBasename e.filename] := by
              intro hx
              exact hname (by simpa using (List.append_cancel_left hx).symm)
            simp [updateFs, hne]
          | cons f fl =>
            rw [hfl] at hthis
            rw [hthis, List.getLast?_eq_getLast (f :: fl) (by simp)]

/-- A `dict` lookup right after inserting the same key. -/
theorem lookupStatus_dictInsert_self :
    ∀ (d : List (String × String)) (k v : String),
      lookupStatus (dictInsert d k v) k = some v := by
  intro d k v
  induction d with
  | nil =>
    simp [dictInsert, lookupStatus]
  | cons p rest ih =>
    by_cases hp : p.1 = k
    · simp [dictInsert, hp, lookupStatus]
    · simp [dictInsert, hp, lookupStatus, ih]

/-- A `dict` lookup of a different key is unaffected by an insertion. -/
theorem lookupStatus_dictInsert_other :
    ∀ (d : List (String × String)) (k v k2 : String), k2 ≠ k →
      lookupStatus (dictInsert d k v) k2 = lookupStatus d k2 := by
  intro d k v k2 hne
  have hkk : ¬ (k = k2) := fun h => hne h.symm
  induction d with
  | nil =>
    simp [dictInsert, lookupStatus, hkk]
  | cons p rest ih =>
    by_cases hp : p.1 = k
    · have hp2 : ¬ (p.1 = k2) := by
        rw [hp]
        exact hkk
      simp [dictInsert, hp, lookupStatus, hkk, hp2]
    · simp [dictInsert, hp, lookupStatus, ih]

/-- After the per-item loop, the status recorded under a name is that of
the last catalog item bearing it. -/
theorem statusDict_lookup :
    ∀ (items : List ItemSpec) (d : List (String × String)) (n : String),
      lookupStatus (statusDict items d) n =
        match (items.filter fun it => decide (it.name = n)).getLast? with
        | some it => some (itemStatus it.behavior)
        | none => lookupStatus d n := by
  intro items
  induction items with
  | nil =>
    intro d n
    simp [statusDict]
  | cons it rest ih =>
    intro d n
    rw [statusDict]
    rw [ih]
    by_cases hn : it.name = n
    · subst hn
      rw [List.filter_cons, if_pos (by simp)]
      cases hfl : rest.filter (fun it2 => decide (it2.name = it.name)) with
      | nil =>
        exact lookupStatus_dictInsert_self d it.name (itemStatus it.behavior)
      | cons f fl =>
        rw [List.getLast?_cons_cons, List.getLast?_eq_getLast (f :: fl) (by simp)]
    · rw [List.filter_cons, if_neg (by simp [hn])]
      cases hfl : rest.filter (fun it2 => decide (it2.name = n)) with
      | nil =>
        exact lookupStatus_dictInsert_other d it.name (itemStatus it.behavior) n
          (fun h => hn h.symm)
      | cons f fl =>
        rw [List.getLast?_eq_getLast (f :: fl) (by simp)]

/-- Looking a name up through the per-subdirectory tree wrapper. -/
theorem assocLookup_dirsOfMaps :
    ∀ (l : List (String × List (String × ByteSeq))) (k : String),
      assocLookup (l.map (fun s => (s.1, Tree.node [] s.2))) k
        = Option.map (fun fl => Tree.node [] fl) (assocLookup l k) := by
  intro l k
  induction l with
  | nil => simp [assocLookup]
  | cons p rest ih =>
    by_cases hp : p.1 = k
    · simp [assocLookup, hp]
    · simp [assocLookup, hp, ih]

/-- Lookup right after a truncating write of the same name. -/
theorem assocLookup_putEntry_self {α : Type} :
    ∀ (l : List (String × α)) (k : String) (v : α),
      assocLookup (putEntry l k v) k = some v := by
  intro l k v
  induction l with
  | nil => simp [putEntry, assocLookup]
  | cons p rest ih =>
    by_cases hp : p.1 = k
    · simp [putEntry, hp, assocLookup]
    · simp [putEntry, hp, assocLookup, ih]

/-- A write leaves other names unchanged. -/
theorem assocLookup_putEntry_other {α : Type} :
    ∀ (l : List (String × α)) (k : String) (v : α) (k2 : String), k2 ≠ k →
      assocLookup (putEntry l k v) k2 = assocLookup l k2 := by
  intro l k v k2 hne
  have hkk : ¬ (k = k2) := fun h => hne h.symm
  induction l with
  | nil => simp [putEntry, assocLookup, hkk]
  | cons p rest ih =>
    by_cases hp : p.1 = k
    · have hp2 : ¬ (p.1 = k2) := by
        rw [hp]
        exact hkk
      simp [putEntry, hp, assocLookup, hkk, hp2]
    · simp [putEntry, hp, assocLookup, ih]

/-- Extracting files with other names leaves a name unchanged. -/
theorem assocLookup_mergeFiles_absent :
    ∀ (files old : List (String × ByteSeq)) (k : String),
      k ∉ files.map Prod.fst →
      assocLookup (mergeFiles old files) k = assocLookup old k := by
  intro files
  induction files with
  | nil =>
    intro old k _
    rfl
  | cons f rest ih =>
    intro old k hk
    have hk1 : k ≠ f.1 := by
      intro hx
      exact hk (by simp [hx])
    have hk2 : k ∉ rest.map Prod.fst := by
      intro hx
      exact hk (by simp [hx])
    rw [mergeFiles, ih (putEntry old f.1 f.2) k hk2,
      assocLookup_putEntry_other old f.1 f.2 k hk1]

/-- After extracting a duplicate-free file list into any directory, each
extracted name holds its extracted content. -/
theorem assocLookup_mergeFiles_mem :
    ∀ (files old : List (String × ByteSeq)) (k : String) (c : ByteSeq),
      (k, c) ∈ files → (files.map Prod.fst).Nodup →
      assocLookup (mergeFiles old files) k = some c := by
  intro files
  induction files with
  | nil =>
    intro old k c hmem _
    cases hmem
  | cons f rest ih =>
    intro old k c hmem hnd
    simp only [List.map_cons] at hnd
    have hnd1 := (List.nodup_cons.mp hnd).1
    have hnd2 := (List.nodup_cons.mp hnd).2
    rw [mergeFiles]
    rcases List.mem_cons.mp hmem with h1 | h2
    · have hf1 : f.1 = k := (congrArg Prod.fst h1).symm
      have hf2 : f.2 = c := (congrArg Prod.snd h1).symm
      have hk : k ∉ rest.map Prod.fst := by
        rw [← hf1]
        exact hnd1
      rw [assocLookup_mergeFiles_absent rest (putEntry old f.1 f.2) k hk, hf1, hf2]
      exact assocLookup_putEntry_self old k c
    · exact ih (putEntry old f.1 f.2) k c h2 hnd2

/-- Lookup of the just-extracted directory: a fresh directory holds
exactly the merged files, a reused one its old files overwritten. -/
theorem assocLookup_dirUpsert_self :
    ∀ (ds : List (String × List (String × ByteSeq))) (n : String)
      (files : List (String × ByteSeq)),
      assocLookup (dirUpsert ds n files) n =
        some (match assocLookup ds n with
          | some old => mergeFiles old files
          | none => mergeFiles [] files) := by
  intro ds n files
  induction ds with
  | nil => simp [dirUpsert, assocLookup]
  | cons d rest ih =>
    by_cases hd : d.1 = n
    · simp [dirUpsert, hd, assocLookup]
    · simp [dirUpsert, hd, assocLookup, ih]

/-- Extraction into one directory leaves the others unchanged. -/
theorem assocLookup_dirUpsert_other :
    ∀ (ds : List (String × List (String × ByteSeq))) (n : String)
      (files : List (String × ByteSeq)) (n2 : String), n2 ≠ n →
      assocLookup (dirUpsert ds n files) n2 = assocLookup ds n2 := by
  intro ds n files n2 hne
  have hnn : ¬ (n = n2) := fun h => hne h.symm
  induction ds with
  | nil => simp [dirUpsert, assocLookup, hnn]
  | cons d rest ih =>
    by_cases hd : d.1 = n
    · have hd2 : ¬ (d.1 = n2) := by
        rw [hd]
        exact hnn
      simp [dirUpsert, hd, assocLookup, hnn, hd2]
    · simp [dirUpsert, hd, assocLookup, ih]

/-- Processing a catalog in two stages. -/
theorem collectDir_append :
    ∀ (xs ys : List ItemSpec) (d : MapsDir),
      collectDir (xs ++ ys) d = collectDir ys (collectDir xs d) := by
  intro xs
  induction xs with
  | nil =>
    intro ys d
    rfl
  | cons x rest ih =>
    intro ys d
    rw [List.cons_append]
    simp only [collectDir]
    exact ih ys (collectStep d x)

/-- Items with other names never touch a directory. -/
theorem collectDir_subdirs_untouched :
    ∀ (items : List ItemSpec) (d : MapsDir) (n : String),
      (∀ it ∈ items, ItemSpec.name it ≠ n) →
      assocLookup (collectDir items d).subdirs n = assocLookup d.subdirs n := by
  intro items
  induction items with
  | nil =>
    intro d n _
    rfl
  | cons it rest ih =>
    intro d n h
    have hit : ItemSpec.name it ≠ n := h it (List.mem_cons_self it rest)
    have hrest : ∀ it2 ∈ rest, ItemSpec.name it2 ≠ n :=
      fun it2 h2 => h it2 (List.mem_cons_of_mem it h2)
    rw [collectDir, ih (collectStep d it) n hrest]
    obtain ⟨nm, bh⟩ := it
    have hnm : n ≠ nm := fun hx => hit hx.symm
    cases bh with
    | ok files => exact assocLookup_dirUpsert_other d.subdirs nm files n hnm
    | emptyLink => rfl
    | fetchFailed code => rfl
    | extractFail zb lf => exact assocLookup_dirUpsert_other d.subdirs nm lf n hnm
    | exc msg => rfl

/-- File lookup in the packed tree, through the collected directory. -/
theorem treeFileLookup_collectTree (items : List ItemSpec) (dn fname : String) :
    treeFileLookup (collectTree items) dn fname =
      match assocLookup (collectDir items ⟨[], []⟩).subdirs dn with
      | some fl => assocLookup fl fname
      | none => none := by
  have h1 : (collectTree items).dirs
      = (collectDir items ⟨[], []⟩).subdirs.map (fun s => (s.1, Tree.node [] s.2)) := rfl
  unfold treeFileLookup
  rw [h1, assocLookup_dirsOfMaps]
  cases assocLookup (collectDir items ⟨[], []⟩).subdirs dn with
  | none => rfl
  | some fl => rfl

/-! ## Claims -/

/-- Claim C2: `extract_zip_flat` never writes a file outside the target
directory, whatever traversal sequences the entry names contain: any
path whose content changes is the target directory extended by exactly
one slash-free component (distinct from `"."` and `".."` and nonempty),
and that path resolves to itself, strictly below the target. -/
theorem extract_zip_flat_stays_inside_target
    (target : List String) (entries : List ZEntry) (fs : Fs) (p : List String)
    (htarget : ∀ c ∈ target, c ≠ "." ∧ c ≠ "..")
    (hchanged : (extract_zip_flat target entries fs).2 p ≠ fs p) :
    ∃ name, p = target ++ [name] ∧ (∀ c ∈ name.toList, c ≠ '/') ∧
      name ≠ "" ∧ name ≠ "." ∧ name ≠ ".." ∧
      normalizePath p = p ∧ target <+: p ∧ p.length = target.length + 1 := by
  obtain ⟨name, hp, hslash, hne, hd1, hd2⟩ :=
    extractLoop_changed target entries fs p hchanged
  refine ⟨name, hp, hslash, hne, hd1, hd2, ?_, ?_, ?_⟩
  · subst hp
    rw [normalizePath, normSteps_clean]
    · simp
    · intro c hc
      rcases List.mem_append.mp hc with h1 | h2
      · exact htarget c h1
      · rw [List.mem_singleton.mp h2]
        exact ⟨hd1, hd2⟩
  · rw [hp]
    exact ⟨[name], rfl⟩
  · subst hp
    simp

/-- Witness for `extract_zip_flat_stays_inside_target`: a hostile entry
named `../../etc/passwd` lands at `tmp/out/passwd`, inside the target. -/
theorem extract_zip_flat_stays_inside_target_witness :
    (∀ c ∈ ["tmp", "out"], c ≠ "." ∧ c ≠ "..") ∧
    (extract_zip_flat ["tmp", "out"] [ZEntry.mk "../../etc/passwd" [1, 2]] emptyFs).2
        ["tmp", "out", "passwd"] ≠ emptyFs ["tmp", "out", "passwd"] ∧
    (∃ name, ["tmp", "out", "passwd"] = ["tmp", "out"] ++ [name] ∧
      (∀ c ∈ name.toList, c ≠ '/') ∧ name ≠ "" ∧ name ≠ "." ∧ name ≠ ".." ∧
      normalizePath ["tmp", "out", "passwd"] = ["tmp", "out", "passwd"] ∧
      ["tmp", "out"] <+: ["tmp", "out", "passwd"] ∧
      (["tmp", "out", "passwd"] : List String).length
        = (["tmp", "out"] : List String).length + 1) :=
  ⟨by decide, by decide,
    extract_zip_flat_stays_inside_target ["tmp", "out"]
      [ZEntry.mk "../../etc/passwd" [1, 2]] emptyFs ["tmp", "out", "passwd"]
      (by decide) (by decide)⟩

/-- Claim C7: the extractor skips directory entries, entries with an
empty basename and junk entries, and on a successful extraction the file
at `target/name` holds the content of the last non-skipped entry with
basename `name` (one file per basename, last write wins); paths with no
such entry are untouched. -/
theorem extract_zip_flat_skips_and_last_write_wins
    (target : List String) (entries : List ZEntry) (fs : Fs) (name : String)
    (hok : (extract_zip_flat target entries fs).1 = true) :
    (∀ e : ZEntry, endsWithSlash e.filename = true → skipEntry e = true) ∧
    (∀ e : ZEntry, pyBasename e.filename = "" → skipEntry e = true) ∧
    (∀ e : ZEntry, strContains e.filename "__MACOSX" = true → skipEntry e = true) ∧
    (extract_zip_flat target entries fs).2 (target ++ [name]) =
      match (entries.filter fun e =>
          !skipEntry e && decide (pyBasename e.filename = name)).getLast? with
      | some e => some e.content
      | none => fs (target ++ [name]) := by
  refine ⟨?_, ?_, ?_, extractLoop_lookup target entries fs name hok⟩
  · intro e he
    simp [skipEntry, he]
  · intro e he
    simp [skipEntry, he]
  · intro e he
    simp [skipEntry, he]

/-- Witness for `extract_zip_flat_skips_and_last_write_wins`: with two
entries of basename `x.txt` and one directory entry, the surviving
content is the later entry's. -/
theorem extract_zip_flat_skips_and_last_write_wins_witness :
    (extract_zip_flat ["t"] w7Entries emptyFs).1 = true ∧
    ((∀ e : ZEntry, endsWithSlash e.filename = true → skipEntry e = true) ∧
    (∀ e : ZEntry, pyBasename e.filename = "" → skipEntry e = true) ∧
    (∀ e : ZEntry, strContains e.filename "__MACOSX" = true → skipEntry e = true) ∧
    (extract_zip_flat ["t"] w7Entries emptyFs).2 (["t"] ++ ["x.txt"]) =
      match (w7Entries.filter fun e =>
          !skipEntry e && decide (pyBasename e.filename = "x.txt")).getLast? with
      | some e => some e.content
      | none => emptyFs (["t"] ++ ["x.txt"])) :=
  ⟨by decide,
    extract_zip_flat_skips_and_last_write_wins ["t"] w7Entries emptyFs "x.txt" (by decide)⟩

/-- Claim C10: the junk filter tests `'__MACOSX' in filename` on the
whole stored path, so any entry whose name contains that substring
anywhere — including a regular file such as `notes__MACOSX.txt` — is
dropped, leaving both the result flag and the file system exactly as if
the entry were absent. -/
theorem macosx_substring_entry_dropped
    (target : List String) (fs : Fs) (e : ZEntry) (rest : List ZEntry)
    (h : strContains e.filename "__MACOSX" = true) :
    extract_zip_flat target (e :: rest) fs = extract_zip_flat target rest fs := by
  have hs : skipEntry e = true := by simp [skipEntry, h]
  simp [extract_zip_flat, extractLoop, hs]

/-- Witness for `macosx_substring_entry_dropped`: the regular file
`notes__MACOSX.txt` is silently dropped. -/
theorem macosx_substring_entry_dropped_witness :
    strContains "notes__MACOSX.txt" "__MACOSX" = true ∧
    extract_zip_flat ["t"] [ZEntry.mk "notes__MACOSX.txt" [1]] emptyFs
      = extract_zip_flat ["t"] [] emptyFs :=
  ⟨by decide,
    macosx_substring_entry_dropped ["t"] emptyFs (ZEntry.mk "notes__MACOSX.txt" [1]) []
      (by decide)⟩

/-- Claim C1 (refuted — code bug): `zip_folder` sorts only the file
names within each directory, not the subdirectory order of `os.walk`,
so two directories holding the identical multiset of (relative path,
content) pairs but enumerated by the file system in different
subdirectory orders produce different archives.  This contradicts the
code's own comment (which claims a consistent traversal order) and the
hash-comparison design that depends on it. -/
theorem zip_folder_depends_on_dir_enumeration :
    (allPairs [] c1TreeA).Perm (allPairs [] c1TreeB) ∧
    zip_folder c1TreeA ≠ zip_folder c1TreeB :=
  ⟨by decide, by decide⟩

/-- Claim C9: every entry record `zip_folder` writes carries the fixed
timestamp tuple `(2015, 11, 28, 0, 0, 0)` — not the 2020-01-01 the
adjacent source comment announces — and DEFLATE (method 8) at level 6. -/
theorem zip_folder_fixed_entry_metadata (t : Tree) (r : ZipEntryRecord)
    (hr : r ∈ zip_folder t) :
    r.dateTime = (2015, 11, 28, 0, 0, 0) ∧ r.compressType = 8 ∧ r.compressLevel = 6 := by
  obtain ⟨p, _, rfl⟩ := List.mem_map.mp hr
  exact ⟨rfl, rfl, rfl⟩

/-- Witness for `zip_folder_fixed_entry_metadata` on a one-file tree. -/
theorem zip_folder_fixed_entry_metadata_witness :
    mkRecord "x.txt" [5] ∈ zip_folder (leafT [("x.txt", [5])]) ∧
    ((mkRecord "x.txt" [5]).dateTime = (2015, 11, 28, 0, 0, 0) ∧
      (mkRecord "x.txt" [5]).compressType = 8 ∧
      (mkRecord "x.txt" [5]).compressLevel = 6) :=
  ⟨by decide,
    zip_folder_fixed_entry_metadata (leafT [("x.txt", [5])]) (mkRecord "x.txt" [5])
      (by decide)⟩

/-- Claim C3 counterexample: a run whose packing step failed after the
archive file was created still computes a fingerprint, because
`run_crawl` hashes whenever `os.path.exists(zip_path)` holds, not when
`zip_folder` returned success.  So "fingerprint defined iff the archive
was successfully produced" is false. -/
theorem run_crawl_failed_pack_has_fingerprint :
    (run_crawl [] PackOutcome.failedFileKept "" [0] [7]).zipResult = false ∧
    (run_crawl [] PackOutcome.failedFileKept "" [0] [7]).hasError = true ∧
    (run_crawl [] PackOutcome.failedFileKept "" [0] [7]).fileHash = some [7] :=
  ⟨by decide, by decide, by decide⟩

/-- Claim C3 (amended): the fingerprint is defined iff the archive file
exists after the packing attempt — always when packing succeeded
(whatever the error flag and the per-item outcomes), never when the
failure left no file, but also when a failed pack left a partial file
behind. -/
theorem run_crawl_fingerprint_iff_file_left
    (items : List ItemSpec) (pack : PackOutcome) (sfx : String) (dF dL : ByteSeq) :
    (run_crawl items pack sfx dF dL).fileHash.isSome = packLeavesFile pack ∧
    (run_crawl items pack sfx dF dL).fileExists = packLeavesFile pack := by
  cases pack with
  | packed => exact ⟨rfl, rfl⟩
  | failedFileKept => exact ⟨rfl, rfl⟩
  | failedNoFile => exact ⟨rfl, rfl⟩

/-- Claim C4: when the first pass reports no error, `main` accepts using
the first pass's archive and fingerprint, exits 0, and the second pass
is never executed — the outcome does not depend on the second pass at
all. -/
theorem clean_first_pass_accepted_without_second
    (items : List ItemSpec) (pack : PackOutcome) (sfx : String) (dF dL : ByteSeq)
    (second : RunSpec)
    (h : (run_crawl items pack sfx dF dL).hasError = false) :
    main (toRunSpec (run_crawl items pack sfx dF dL)) second =
      { ranSecond := false
        exitCode := 0
        canonicalArchiveFrom := some PassTag.firstPass
        canonicalHashFrom := some PassTag.firstPass } ∧
    (∀ other : RunSpec,
      main (toRunSpec (run_crawl items pack sfx dF dL)) other =
        main (toRunSpec (run_crawl items pack sfx dF dL)) second) := by
  cases pack with
  | failedFileKept => simp [run_crawl] at h
  | failedNoFile => simp [run_crawl] at h
  | packed =>
    have hz : (toRunSpec (run_crawl items PackOutcome.packed sfx dF dL)).zipExists = true := rfl
    have he : (toRunSpec (run_crawl items PackOutcome.packed sfx dF dL)).hasError = false := h
    constructor
    · simp [main, he, hz]
    · intro other
      simp [main, he, hz]

/-- Witness for `clean_first_pass_accepted_without_second`: one clean
item, packing succeeded. -/
theorem clean_first_pass_accepted_without_second_witness :
    (run_crawl [ItemSpec.mk "A" (ItemBehavior.ok [])] PackOutcome.packed "" [0] [1]).hasError
      = false ∧
    (main (toRunSpec (run_crawl [ItemSpec.mk "A" (ItemBehavior.ok [])]
        PackOutcome.packed "" [0] [1])) (RunSpec.mk true true (some [9])) =
      { ranSecond := false
        exitCode := 0
        canonicalArchiveFrom := some PassTag.firstPass
        canonicalHashFrom := some PassTag.firstPass } ∧
    (∀ other : RunSpec,
      main (toRunSpec (run_crawl [ItemSpec.mk "A" (ItemBehavior.ok [])]
          PackOutcome.packed "" [0] [1])) other =
        main (toRunSpec (run_crawl [ItemSpec.mk "A" (ItemBehavior.ok [])]
            PackOutcome.packed "" [0] [1])) (RunSpec.mk true true (some [9])))) :=
  ⟨by decide,
    clean_first_pass_accepted_without_second [ItemSpec.mk "A" (ItemBehavior.ok [])]
      PackOutcome.packed "" [0] [1] (RunSpec.mk true true (some [9])) (by decide)⟩

/-- Claim C5: when the first pass errored but both passes produced the
same defined fingerprint — in particular with `hasError` true on both —
`main` accepts with exit code 0 and the canonical archive and digest are
copies of the first pass's artifacts. -/
theorem equal_fingerprints_accept_first_pass
    (items : List ItemSpec) (pack : PackOutcome) (sfx : String) (dF dL : ByteSeq)
    (second : RunSpec) (d : ByteSeq)
    (hErr : (run_crawl items pack sfx dF dL).hasError = true)
    (hf : (run_crawl items pack sfx dF dL).fileHash = some d)
    (hs : second.fingerprint = some d) :
    main (toRunSpec (run_crawl items pack sfx dF dL)) second =
      { ranSecond := true
        exitCode := 0
        canonicalArchiveFrom := some PassTag.firstPass
        canonicalHashFrom := some PassTag.firstPass } := by
  have h1 : (toRunSpec (run_crawl items pack sfx dF dL)).hasError = true := hErr
  have h2 : hashesMatch (toRunSpec (run_crawl items pack sfx dF dL)).fingerprint
      second.fingerprint = true := by
    rw [show (toRunSpec (run_crawl items pack sfx dF dL)).fingerprint = some d from hf, hs]
    simp [hashesMatch]
  simp [main, h1, h2]

/-- Witness for `equal_fingerprints_accept_first_pass`: an extraction
failure in the first pass, a second pass with `hasError` true, equal
fingerprints. -/
theorem equal_fingerprints_accept_first_pass_witness :
    (run_crawl [ItemSpec.mk "X" (ItemBehavior.extractFail [1] [])]
        PackOutcome.packed "" [3] [9]).hasError = true ∧
    (run_crawl [ItemSpec.mk "X" (ItemBehavior.extractFail [1] [])]
        PackOutcome.packed "" [3] [9]).fileHash = some [3] ∧
    (RunSpec.mk true true (some [3])).fingerprint = some [3] ∧
    main (toRunSpec (run_crawl [ItemSpec.mk "X" (ItemBehavior.extractFail [1] [])]
        PackOutcome.packed "" [3] [9])) (RunSpec.mk true true (some [3])) =
      { ranSecond := true
        exitCode := 0
        canonicalArchiveFrom := some PassTag.firstPass
        canonicalHashFrom := some PassTag.firstPass } :=
  ⟨by decide, by decide, by decide,
    equal_fingerprints_accept_first_pass [ItemSpec.mk "X" (ItemBehavior.extractFail [1] [])]
      PackOutcome.packed "" [3] [9] (RunSpec.mk true true (some [3])) [3]
      (by decide) (by decide) (by decide)⟩

/-- Claim C6: when the comparison step is reached (first pass errored)
and the two fingerprints do not match — differing, or either undefined —
`main` exits with the nonzero code 1 and writes no canonical
archive/digest pair. -/
theorem differing_fingerprints_rejected
    (first second : RunSpec)
    (hErr : first.hasError = true)
    (hm : hashesMatch first.fingerprint second.fingerprint = false) :
    main first second =
      { ranSecond := true
        exitCode := 1
        canonicalArchiveFrom := none
        canonicalHashFrom := none } := by
  simp [main, hErr, hm]

/-- Witness for `differing_fingerprints_rejected`: two errored passes
with different fingerprints. -/
theorem differing_fingerprints_rejected_witness :
    (RunSpec.mk true true (some [1])).hasError = true ∧
    hashesMatch (RunSpec.mk true true (some [1])).fingerprint
      (RunSpec.mk true true (some [2])).fingerprint = false ∧
    main (RunSpec.mk true true (some [1])) (RunSpec.mk true true (some [2])) =
      { ranSecond := true
        exitCode := 1
        canonicalArchiveFrom := none
        canonicalHashFrom := none } :=
  ⟨by decide, by decide,
    differing_fingerprints_rejected (RunSpec.mk true true (some [1]))
      (RunSpec.mk true true (some [2])) (by decide) (by decide)⟩

/-- Claim C8 counterexample: the status report is a dict keyed by item
name, so a later item with the same name overwrites a failing item's
entry — here the fetch failure of the first `X` (status `地图压缩包500`)
is invisible in the final report, which shows only `正常`. -/
theorem run_crawl_shadowed_failure_status :
    (run_crawl [ItemSpec.mk "X" (ItemBehavior.fetchFailed 500), ItemSpec.mk "X" (ItemBehavior.ok [])]
        PackOutcome.packed "" [0] [1]).hasError = true ∧
    (run_crawl [ItemSpec.mk "X" (ItemBehavior.fetchFailed 500), ItemSpec.mk "X" (ItemBehavior.ok [])]
        PackOutcome.packed "" [0] [1]).mapStatus = [("X", "正常")] ∧
    itemStatus (ItemBehavior.fetchFailed 500) = "地图压缩包500" :=
  ⟨by decide, by decide, by decide⟩

/-- Claim C8 (amended): a failing item never aborts the run — the totals
cover every catalog item, the error flag is set, and packing is still
attempted on the collected tree.  The failing item's classified failure
status is in the report, provided no later item shares its name (the
report is keyed by name, so a later duplicate overwrites it) and its
name is not the synthetic packing key `打包`.  Every later successful
item's extracted files are in the tree handed to the packer — its target
directory maps each of its distinct basenames to its content — provided
no later item shares that item's name (duplicate-named items share one
`maps/<name>` directory, later writes overwriting earlier ones per
basename). -/
theorem run_crawl_survives_item_failure
    (pre post : List ItemSpec) (bad : ItemSpec) (pack : PackOutcome)
    (sfx : String) (dF dL : ByteSeq)
    (hfail : itemErrored bad.behavior = true)
    (hshadow : ∀ it ∈ post, ItemSpec.name it ≠ bad.name)
    (hpk : bad.name ≠ "打包") :
    (run_crawl (pre ++ bad :: post) pack sfx dF dL).totalMaps = (pre ++ bad :: post).length ∧
    lookupStatus (run_crawl (pre ++ bad :: post) pack sfx dF dL).mapStatus bad.name
      = some (itemStatus bad.behavior) ∧
    (run_crawl (pre ++ bad :: post) pack sfx dF dL).hasError = true ∧
    (run_crawl (pre ++ bad :: post) pack sfx dF dL).packedEntries
      = zip_folder (collectTree (pre ++ bad :: post)) ∧
    (∀ post1 it1 post2, post = post1 ++ it1 :: post2 →
      (∀ it2 ∈ post2, ItemSpec.name it2 ≠ ItemSpec.name it1) →
      ∀ files, ItemSpec.behavior it1 = ItemBehavior.ok files →
      (files.map Prod.fst).Nodup →
      ∀ fname c, (fname, c) ∈ files →
        treeFileLookup (collectTree (pre ++ bad :: post)) (ItemSpec.name it1) fname
          = some c) := by
  have hlook : lookupStatus (statusDict (pre ++ bad :: post) []) bad.name
      = some (itemStatus bad.behavior) := by
    rw [statusDict_lookup]
    have hpost : post.filter (fun it2 => decide (it2.name = bad.name)) = [] := by
      refine List.filter_eq_nil_iff.mpr ?_
      intro a ha
      simp [hshadow a ha]
    rw [List.filter_append, List.filter_cons, if_pos (by simp), hpost, List.getLast?_concat]
  refine ⟨rfl, ?_, ?_, rfl, ?_⟩
  · have hms : lookupStatus (run_crawl (pre ++ bad :: post) pack sfx dF dL).mapStatus bad.name
        = lookupStatus (statusDict (pre ++ bad :: post) []) bad.name := by
      cases pack with
      | packed => rfl
      | failedFileKept =>
        exact lookupStatus_dictInsert_other (statusDict (pre ++ bad :: post) []) "打包"
          ("./r6maps" ++ sfx ++ ".zip" ++ "打包失败") bad.name hpk
      | failedNoFile =>
        exact lookupStatus_dictInsert_other (statusDict (pre ++ bad :: post) []) "打包"
          ("./r6maps" ++ sfx ++ ".zip" ++ "打包失败") bad.name hpk
    rw [hms, hlook]
  · have hany : (pre ++ bad :: post).any (fun it => itemErrored it.behavior) = true :=
      List.any_eq_true.mpr ⟨bad, by simp, hfail⟩
    simp [run_crawl, hany]
  · intro post1 it1 post2 hpost hafter files hb hnodup fname c hfc
    subst hpost
    obtain ⟨n1, b1⟩ := it1
    have hb2 : b1 = ItemBehavior.ok files := hb
    subst hb2
    have hsplit : pre ++ bad :: (post1 ++ ItemSpec.mk n1 (ItemBehavior.ok files) :: post2)
        = (pre ++ bad :: post1) ++ ItemSpec.mk n1 (ItemBehavior.ok files) :: post2 := by
      simp
    rw [hsplit, treeFileLookup_collectTree, collectDir_append]
    rw [show collectDir (ItemSpec.mk n1 (ItemBehavior.ok files) :: post2)
          (collectDir (pre ++ bad :: post1) ⟨[], []⟩)
        = collectDir post2
            (collectStep (collectDir (pre ++ bad :: post1) ⟨[], []⟩)
              (ItemSpec.mk n1 (ItemBehavior.ok files))) from rfl]
    rw [collectDir_subdirs_untouched post2
        (collectStep (collectDir (pre ++ bad :: post1) ⟨[], []⟩)
          (ItemSpec.mk n1 (ItemBehavior.ok files))) n1 hafter]
    rw [show (collectStep (collectDir (pre ++ bad :: post1) ⟨[], []⟩)
          (ItemSpec.mk n1 (ItemBehavior.ok files))).subdirs
        = dirUpsert (collectDir (pre ++ bad :: post1) ⟨[], []⟩).subdirs n1 files from rfl]
    rw [assocLookup_dirUpsert_self]
    cases hold : assocLookup (collectDir (pre ++ bad :: post1) ⟨[], []⟩).subdirs n1 with
    | some old => exact assocLookup_mergeFiles_mem files old fname c hfc hnodup
    | none => exact assocLookup_mergeFiles_mem files [] fname c hfc hnodup

/-- Witness for `run_crawl_survives_item_failure`: item `B` fails with a
404, `B`'s failure is reported, and the later item `A`'s extracted file
`m.png` is present in the packed tree. -/
theorem run_crawl_survives_item_failure_witness :
    itemErrored (ItemSpec.mk "B" (ItemBehavior.fetchFailed 404)).behavior = true ∧
    (∀ it ∈ [ItemSpec.mk "A" (ItemBehavior.ok [("m.png", [5])])],
      ItemSpec.name it ≠ (ItemSpec.mk "B" (ItemBehavior.fetchFailed 404)).name) ∧
    (ItemSpec.mk "B" (ItemBehavior.fetchFailed 404)).name ≠ "打包" ∧
    (run_crawl ([] ++ ItemSpec.mk "B" (ItemBehavior.fetchFailed 404)
        :: [ItemSpec.mk "A" (ItemBehavior.ok [("m.png", [5])])])
      PackOutcome.packed "" [0] [1]).hasError = true ∧
    lookupStatus (run_crawl ([] ++ ItemSpec.mk "B" (ItemBehavior.fetchFailed 404)
        :: [ItemSpec.mk "A" (ItemBehavior.ok [("m.png", [5])])])
      PackOutcome.packed "" [0] [1]).mapStatus
        (ItemSpec.mk "B" (ItemBehavior.fetchFailed 404)).name
      = some (itemStatus (ItemSpec.mk "B" (ItemBehavior.fetchFailed 404)).behavior) ∧
    treeFileLookup (collectTree ([] ++ ItemSpec.mk "B" (ItemBehavior.fetchFailed 404)
        :: [ItemSpec.mk "A" (ItemBehavior.ok [("m.png", [5])])]))
      (ItemSpec.name (ItemSpec.mk "A" (ItemBehavior.ok [("m.png", [5])]))) "m.png"
      = some [5] :=
  ⟨by decide, by decide, by decide,
    (run_crawl_survives_item_failure [] [ItemSpec.mk "A" (ItemBehavior.ok [("m.png", [5])])]
      (ItemSpec.mk "B" (ItemBehavior.fetchFailed 404)) PackOutcome.packed "" [0] [1]
      (by decide) (by decide) (by decide)).2.2.1,
    (run_crawl_survives_item_failure [] [ItemSpec.mk "A" (ItemBehavior.ok [("m.png", [5])])]
      (ItemSpec.mk "B" (ItemBehavior.fetchFailed 404)) PackOutcome.packed "" [0] [1]
      (by decide) (by decide) (by decide)).2.1,
    (run_crawl_survives_item_failure [] [ItemSpec.mk "A" (ItemBehavior.ok [("m.png", [5])])]
      (ItemSpec.mk "B" (ItemBehavior.fetchFailed 404)) PackOutcome.packed "" [0] [1]
      (by decide) (by decide) (by decide)).2.2.2.2
      [] (ItemSpec.mk "A" (ItemBehavior.ok [("m.png", [5])])) [] rfl (by decide)
      [("m.png", [5])] rfl (by decide) "m.png" [5] (by decide)⟩

end R6
